import Mathlib

/-!
Shallow embedding of the PowerPoint population service core
(service.py of PowerPoint_Service), together with proofs checking the
natural-language specification against it.

Machine model conventions:
* text content is a list of characters (Python str); element and field
  names are Lean strings;
* python-pptx objects are modelled structurally: a run is text plus a
  font, a paragraph is a list of runs plus a paragraph-level font, a
  text frame is a list of paragraphs; setting the text of a text frame
  produces one paragraph per line, the line being that paragraph's
  single run (an attribute that is Python None is an Option that is
  none);
* dictionaries are association lists in insertion order.
-/

set_option maxRecDepth 10000

/-- A python-pptx font: every attribute is independently nullable.
color is modelled by type (1 = explicit RGB, 2 = theme), rgb value and
theme value, mirroring font.color.type / .rgb / .theme_color. -/
structure Font where
  fname : Option String
  size : Option Nat
  bold : Option Bool
  italic : Option Bool
  underline : Option Bool
  colorType : Option Nat
  colorRgb : Option Nat
  colorTheme : Option Nat
deriving DecidableEq, Repr

/-- The font of a run freshly created by assigning text: no attribute set. -/
def Font.unset : Font := ⟨none, none, none, none, none, none, none, none⟩

/-- Captured font properties, as built by _capture_font_props in service.py. -/
structure FontProps where
  fname : Option String
  size : Option Nat
  bold : Option Bool
  italic : Option Bool
  underline : Option Bool
  colorType : Option Nat
  colorRgb : Option Nat
  colorTheme : Option Nat
deriving DecidableEq, Repr

/-- _capture_font_props: copy each attribute; rgb is only read when the
color type is explicit RGB (type == 1). -/
def capture_font_props (f : Font) : FontProps where
  fname := f.fname
  size := f.size
  bold := f.bold
  italic := f.italic
  underline := f.underline
  colorType := f.colorType
  colorRgb := if f.colorType = some 1 then f.colorRgb else none
  colorTheme := f.colorTheme

/-- _apply_font_props: set every non-None captured attribute on the font;
assigning an explicit rgb sets the color type to RGB (1), else a theme
color sets it to theme (2). -/
def apply_font_props (f : Font) (p : FontProps) : Font :=
  let f1 := if p.fname.isSome then { f with fname := p.fname } else f
  let f2 := if p.size.isSome then { f1 with size := p.size } else f1
  let f3 := if p.bold.isSome then { f2 with bold := p.bold } else f2
  let f4 := if p.italic.isSome then { f3 with italic := p.italic } else f3
  let f5 := if p.underline.isSome then { f4 with underline := p.underline } else f4
  if p.colorRgb.isSome then
    { f5 with colorRgb := p.colorRgb, colorType := some 1 }
  else if p.colorTheme.isSome then
    { f5 with colorTheme := p.colorTheme, colorType := some 2 }
  else f5

/-- A styled run of text inside a paragraph. -/
structure TRun where
  text : List Char
  font : Font
deriving DecidableEq, Repr

/-- A paragraph: runs plus the paragraph-level font. -/
structure Paragraph where
  runs : List TRun
  pfont : Font
deriving DecidableEq, Repr

/-- A text frame: an ordered list of paragraphs. -/
structure TextFrame where
  paragraphs : List Paragraph
deriving DecidableEq, Repr

/-- Split a text on the newline character, Python str.split("\n"):
the empty text yields one empty line. -/
def splitLines : List Char → List (List Char)
  | [] => [[]]
  | c :: rest =>
    if c = '\n' then [] :: splitLines rest
    else
      match splitLines rest with
      | [] => [[c]]
      | l :: ls => (c :: l) :: ls

/-- Join lines with newline characters (inverse of splitLines). -/
def joinLines : List (List Char) → List Char
  | [] => []
  | [l] => l
  | l :: ls => l ++ '\n' :: joinLines ls

theorem splitLines_ne_nil (t : List Char) : splitLines t ≠ [] := by
  induction t with
  | nil => simp [splitLines]
  | cons c rest ih =>
    simp only [splitLines]
    split
    · simp
    · cases h : splitLines rest with
      | nil => simp
      | cons l ls => simp

theorem joinLines_splitLines (t : List Char) : joinLines (splitLines t) = t := by
  induction t with
  | nil => rfl
  | cons c rest ih =>
    simp only [splitLines]
    split
    · next hc =>
      subst hc
      cases h : splitLines rest with
      | nil => exact absurd h (splitLines_ne_nil rest)
      | cons l ls =>
        rw [h] at ih
        simp [joinLines, ← ih]
    · cases h : splitLines rest with
      | nil => exact absurd h (splitLines_ne_nil rest)
      | cons l ls =>
        rw [h] at ih
        cases ls with
        | nil => simp_all [joinLines]
        | cons l2 ls2 => simp_all [joinLines]

/-- python-pptx text frame text setter: the content is replaced by one
paragraph per line, each paragraph holding that line as its single run,
with no font attribute set anywhere. -/
def TextFrame.setText (_tf : TextFrame) (t : List Char) : TextFrame :=
  ⟨(splitLines t).map fun line => ⟨[⟨line, Font.unset⟩], Font.unset⟩⟩

/-- python-pptx text frame text getter: paragraph texts joined by newlines. -/
def TextFrame.getText (tf : TextFrame) : List Char :=
  joinLines (tf.paragraphs.map fun p => (p.runs.map TRun.text).flatten)

/-- Apply captured font properties to the first run of a paragraph, if any
(the loop body of the restore phase in populate_text_placeholder). -/
def restoreParagraph (props : FontProps) (p : Paragraph) : Paragraph :=
  match p.runs with
  | [] => p
  | r :: rest => ⟨{ r with font := apply_font_props r.font props } :: rest, p.pfont⟩

/-- The style snapshot taken in populate_text_placeholder: from the first
paragraph's first run when it has runs, else from the paragraph-level font. -/
def snapshotOfFirstParagraph (first : Paragraph) : FontProps :=
  match first.runs with
  | r :: _ => capture_font_props r.font
  | [] => capture_font_props first.pfont

/-- Body of populate_text_placeholder for a shape with a text frame. -/
def populateTextFrame (tf : TextFrame) (text : List Char) : TextFrame :=
  match tf.paragraphs with
  | first :: _ =>
    let props := snapshotOfFirstParagraph first
    let tf2 := tf.setText text
    ⟨tf2.paragraphs.map (restoreParagraph props)⟩
  | [] => tf.setText text

/-- A table cell: its text frame (cell.text_frame; cell.text delegates
to the frame's text). -/
structure Cell where
  tf : TextFrame
deriving DecidableEq, Repr

/-- A table: a grid of cells plus the declared column count
(len(table.columns)); in a well-formed table every row has nCols cells. -/
structure Table where
  rows : List (List Cell)
  nCols : Nat
deriving DecidableEq, Repr

/-- Content of a shape, dispatching what service.py probes dynamically:
a shape with a text frame, a shape with bare text but no text frame, a
graphic frame holding a table (has_table), or anything else. -/
inductive ShapeContent where
  | text (tf : TextFrame)
  | bare (t : List Char)
  | table (tbl : Table)
  | other
deriving DecidableEq, Repr

/-- A named visual element on a slide. -/
structure Shape where
  sname : String
  content : ShapeContent
  isPlaceholder : Bool := false
deriving DecidableEq, Repr

/-- A slide layout, reduced to the placeholder shapes that
prs.slides.add_slide copies onto a fresh slide. -/
structure SlideLayout where
  placeholders : List Shape
deriving DecidableEq, Repr

/-- A slide: its ordered shapes and its layout. -/
structure Slide where
  shapes : List Shape
  layout : SlideLayout
deriving DecidableEq, Repr

/-- A presentation document: its ordered slides. -/
structure PresDoc where
  slides : List Slide
deriving DecidableEq, Repr

/-- Parse the regex match re.match(r'^(.+)_(\d+)$', name): the base is
maximal (greedy), so the underscore used is the rightmost one followed
only by digits, at least one digit, with a nonempty base. Returns the
base and the numeric value of the digits. -/
def splitSuffix (name : String) : Option (String × Nat) :=
  let rev := name.data.reverse
  let ds := rev.takeWhile Char.isDigit
  if ds.isEmpty then none
  else
    match rev.dropWhile Char.isDigit with
    | '_' :: base =>
      if base.isEmpty then none
      else some (⟨base.reverse⟩, (ds.reverse.foldl (fun a c => a * 10 + (c.toNat - 48)) 0))
    | _ => none

/-- find_shape_by_name from service.py: a name with a _N suffix selects
the N-th shape (0-based) whose raw name is the base; when that index is
out of range, or when the name has no such suffix, control reaches the
direct whole-name scan. -/
def find_shape_by_name (slide : Slide) (name : String) : Option Shape :=
  match splitSuffix name with
  | some (base, index) =>
    let matching := slide.shapes.filter (fun s => s.sname = base)
    match matching.get? index with
    | some s => some s
    | none => slide.shapes.find? (fun s => s.sname = name)
  | none => slide.shapes.find? (fun s => s.sname = name)

/-- Position-returning variant of find_shape_by_name, used to express the
in-place mutation of the found shape within the slide. -/
def find_shape_index (slide : Slide) (name : String) : Option Nat :=
  match splitSuffix name with
  | some (base, index) =>
    let matchingIdx := (List.range slide.shapes.length).filter
      (fun i => ((slide.shapes.get? i).map Shape.sname) = some base)
    match matchingIdx.get? index with
    | some i => some i
    | none => List.findIdx? (fun s => s.sname = name) slide.shapes
  | none => List.findIdx? (fun s => s.sname = name) slide.shapes

/-- populate_text_placeholder on a (non-None) shape: returns the updated
shape and the success flag. A text-frame shape goes through snapshot
capture / replace / restore; a bare-text shape gets plain assignment;
tables and other shapes fail. -/
def populate_text_placeholder (shape : Shape) (text : List Char) : Shape × Bool :=
  match shape.content with
  | .text tf => ({ shape with content := .text (populateTextFrame tf text) }, true)
  | .bare _ => ({ shape with content := .bare text }, true)
  | .table _ => (shape, false)
  | .other => (shape, false)

/-- cell.text = value: plain python-pptx assignment, no style restore. -/
def Cell.setText (c : Cell) (t : List Char) : Cell :=
  ⟨c.tf.setText t⟩

/-- A scalar JSON value appearing inside a table grid. -/
inductive CellVal where
  | cs (s : String)
  | cb (b : Bool)
deriving DecidableEq, Repr

/-- Python str() of a grid scalar. -/
def CellVal.pyStr : CellVal → List Char
  | .cs s => s.data
  | .cb true => "True".data
  | .cb false => "False".data

/-- A JSON value of a field map: a scalar string, a scalar boolean, or a
grid (list of rows) of scalars. -/
inductive Value where
  | vstr (s : String)
  | vbool (b : Bool)
  | vgrid (rows : List (List CellVal))
deriving DecidableEq, Repr

/-- isinstance(value, list). -/
def Value.isList : Value → Bool
  | .vgrid _ => true
  | _ => false

/-- Python str() of a field value (grids are never stringified by the
code paths modelled here; their repr is abstracted as the empty text). -/
def Value.pyStr : Value → List Char
  | .vstr s => s.data
  | .vbool true => "True".data
  | .vbool false => "False".data
  | .vgrid _ => []

/-- Python truthiness of a field value. -/
def Value.truthy : Value → Bool
  | .vstr s => ¬ s.isEmpty
  | .vbool b => b
  | .vgrid rows => ¬ rows.isEmpty

/-- table.cell(r, c) overwritten through a function; out-of-range
coordinates leave the table unchanged (the loops below never produce
them). -/
def tableModifyCell (tbl : Table) (r c : Nat) (f : Cell → Cell) : Table :=
  match tbl.rows.get? r with
  | none => tbl
  | some row =>
    match row.get? c with
    | none => tbl
    | some cell => { tbl with rows := tbl.rows.set r (row.set c (f cell)) }

/-- Writing one data cell in populate_table: capture per-cell style from
the first paragraph (first run, else paragraph level), set the text, and
restore the snapshot to all resulting paragraphs — the same
capture/replace/restore as populate_text_placeholder. -/
def tableWriteCell (tbl : Table) (r c : Nat) (v : CellVal) : Table :=
  tableModifyCell tbl r c (fun cell => ⟨populateTextFrame cell.tf v.pyStr⟩)

/-- Inner column loop of populate_table: write the cells of one data row,
breaking at the table's column count. -/
def tableWriteRowGo (r : Nat) : Table → Nat → List CellVal → Table
  | tbl, _, [] => tbl
  | tbl, c, v :: rest =>
    if c ≥ tbl.nCols then tbl
    else tableWriteRowGo r (tableWriteCell tbl r c v) (c + 1) rest

/-- Outer row loop of populate_table: write the data rows, breaking at
the table's row count. -/
def tableWriteRows (start : Nat) : Table → Nat → List (List CellVal) → Table
  | tbl, _, [] => tbl
  | tbl, i, row :: rest =>
    if i + start ≥ tbl.rows.length then tbl
    else tableWriteRows start (tableWriteRowGo (i + start) tbl 0 row) (i + 1) rest

/-- cell.text = "" for one cell. -/
def tableClearCell (tbl : Table) (r c : Nat) : Table :=
  tableModifyCell tbl r c (fun cell => cell.setText [])

/-- Trailing clear phase of populate_table: every row from rows_populated
on is set to empty text in all its columns. -/
def tableClear (tbl : Table) (fromRow : Nat) : Table :=
  (List.range' fromRow (tbl.rows.length - fromRow)).foldl
    (fun t r => (List.range t.nCols).foldl (fun t2 c => tableClearCell t2 r c) t) tbl

/-- populate_table from service.py: fails unless the shape holds a table;
start_row is 1 when the header is skipped; data rows beyond the table
and cells beyond the columns are dropped by the loop breaks; remaining
rows are cleared. -/
def populate_table (shape : Shape) (data : List (List CellVal)) (skip_header : Bool) : Shape × Bool :=
  match shape.content with
  | .table tbl =>
    let start : Nat := if skip_header then 1 else 0
    let t1 := tableWriteRows start tbl 0 data
    let t2 := tableClear t1 (data.length + start)
    ({ shape with content := .table t2 }, true)
  | _ => (shape, false)

/-- data.get(key): first binding of an association list. -/
def lookupData (data : List (String × Value)) (k : String) : Option Value :=
  (data.find? (fun kv => kv.1 = k)).map Prod.snd

/-- Replace the shape at a position of a slide (in-place mutation of a
found shape). -/
def slideSetShape (slide : Slide) (i : Nat) (s : Shape) : Slide :=
  { slide with shapes := slide.shapes.set i s }

/-- One step of the text loop of populate_single_slide: list values are
skipped; otherwise resolve the key and write str(value); count the key
when the write succeeded. -/
def textPassStep (acc : Slide × List String) (kv : String × Value) : Slide × List String :=
  if kv.2.isList then acc
  else
    match find_shape_index acc.1 kv.1 with
    | none => acc
    | some i =>
      match acc.1.shapes.get? i with
      | none => acc
      | some sh =>
        let res := populate_text_placeholder sh kv.2.pyStr
        (slideSetShape acc.1 i res.1, if res.2 then acc.2 ++ [kv.1] else acc.2)

/-- One step of the table loop of populate_single_slide: any list value
is a table write; the skip-header flag is data.get(key + "_skip_header")
defaulting to False. -/
def tablePassStep (data : List (String × Value)) (acc : Slide × List String)
    (kv : String × Value) : Slide × List String :=
  match kv.2 with
  | .vgrid rows =>
    match find_shape_index acc.1 kv.1 with
    | none => acc
    | some i =>
      match acc.1.shapes.get? i with
      | none => acc
      | some sh =>
        let skip := ((lookupData data (kv.1 ++ "_skip_header")).getD (.vbool false)).truthy
        let res := populate_table sh rows skip
        (slideSetShape acc.1 i res.1, if res.2 then acc.2 ++ [kv.1] else acc.2)
  | _ => acc

/-- populate_single_slide from service.py: the text loop over all
non-list fields, then the table loop over all list fields; returns the
mutated slide and the populated field names in order. -/
def populate_single_slide (slide : Slide) (data : List (String × Value)) : Slide × List String :=
  data.foldl (tablePassStep data) (data.foldl textPassStep (slide, []))

/-- Python str.endswith over the character list (kernel-evaluable). -/
def endsWithStr (s suffix : String) : Bool := suffix.data.isSuffixOf s.data

/-- One step of the text loop of populate_presentation_from_data (the
legacy single-slide path): keys ending in "_table" and list values are
skipped. -/
def legacyTextStep (acc : Slide × List String) (kv : String × Value) : Slide × List String :=
  if endsWithStr kv.1 "_table" ∨ kv.2.isList then acc
  else
    match find_shape_index acc.1 kv.1 with
    | none => acc
    | some i =>
      match acc.1.shapes.get? i with
      | none => acc
      | some sh =>
        let res := populate_text_placeholder sh kv.2.pyStr
        (slideSetShape acc.1 i res.1, if res.2 then acc.2 ++ [kv.1] else acc.2)

/-- One step of the table loop of populate_presentation_from_data: only
keys ending in "_table" with list values are table writes; the
skip-header flag defaults to True. -/
def legacyTableStep (data : List (String × Value)) (acc : Slide × List String)
    (kv : String × Value) : Slide × List String :=
  match kv.2 with
  | .vgrid rows =>
    if endsWithStr kv.1 "_table" then
      match find_shape_index acc.1 kv.1 with
      | none => acc
      | some i =>
        match acc.1.shapes.get? i with
        | none => acc
        | some sh =>
          let skip := ((lookupData data (kv.1 ++ "_skip_header")).getD (.vbool true)).truthy
          let res := populate_table sh rows skip
          (slideSetShape acc.1 i res.1, if res.2 then acc.2 ++ [kv.1] else acc.2)
    else acc
  | _ => acc

/-- The per-slide body of populate_presentation_from_data. -/
def legacyPopulateSlide (slide : Slide) (data : List (String × Value)) : Slide × List String :=
  data.foldl (legacyTableStep data) (data.foldl legacyTextStep (slide, []))

/-- populate_presentation_from_data from service.py: the legacy
single-slide entry point; errors on an empty template or an
out-of-range slide index, else mutates the addressed slide. -/
def populate_presentation_from_data (prs : PresDoc) (data : List (String × Value))
    (slide_index : Nat) : Option (PresDoc × List String) :=
  if prs.slides.length = 0 then none
  else if slide_index ≥ prs.slides.length then none
  else
    match prs.slides.get? slide_index with
    | none => none
    | some slide =>
      let res := legacyPopulateSlide slide data
      some (⟨prs.slides.set slide_index res.1⟩, res.2)

/-- One population instruction of the multi-slide format:
item.get('slide_index', 0) and item.get('data', {}). -/
structure Instr where
  slideIndex : Nat
  data : List (String × Value)
deriving DecidableEq, Repr

/-- slide_index_usage dictionary lookup. -/
def usageLookup (u : List (Nat × Nat)) (k : Nat) : Option Nat :=
  (u.find? (fun p => p.1 = k)).map Prod.snd

/-- slide_index_usage dictionary write. -/
def usageSet (u : List (Nat × Nat)) (k v : Nat) : List (Nat × Nat) :=
  if (u.find? (fun p => p.1 = k)).isSome then
    u.map (fun p => if p.1 = k then (k, v) else p)
  else u ++ [(k, v)]

/-- State threaded through the instruction loop of populate_multi_slide. -/
structure OrchState where
  prs : PresDoc
  usage : List (Nat × Nat)
  totalFields : Nat
  slidesCreated : Nat
deriving DecidableEq, Repr

/-- Fallback slide for lookups the guarded code never misses. -/
def defaultSlide : Slide := ⟨[], ⟨[]⟩⟩

/-- Slide duplication in populate_multi_slide: add_slide with the
source's layout puts the layout's auto-generated placeholder shapes on
the fresh slide; every shape with is_placeholder set is then removed;
finally a deep copy of each source shape is appended in order. -/
def cloneSlide (source : Slide) : Slide :=
  let fresh : Slide := ⟨source.layout.placeholders, source.layout⟩
  let stripped := fresh.shapes.filter (fun s => ¬ s.isPlaceholder)
  ⟨stripped ++ source.shapes, source.layout⟩

/-- One iteration of the instruction loop of populate_multi_slide:
occurrence bookkeeping, then in-place population when the reference is
inside the current slide list with occurrence 0, else cloning (source
chosen against the current slide list) and population of the clone,
which add_slide appended at the end. -/
def orchStep (st : OrchState) (item : Instr) : OrchState :=
  let occUsage : Nat × List (Nat × Nat) :=
    match usageLookup st.usage item.slideIndex with
    | none => (0, usageSet st.usage item.slideIndex 0)
    | some c => (c + 1, usageSet st.usage item.slideIndex (c + 1))
  let occ := occUsage.1
  let usage2 := occUsage.2
  if item.slideIndex < st.prs.slides.length ∧ occ = 0 then
    let slide := (st.prs.slides.get? item.slideIndex).getD defaultSlide
    let res := populate_single_slide slide item.data
    ⟨⟨st.prs.slides.set item.slideIndex res.1⟩, usage2,
      st.totalFields + res.2.length, st.slidesCreated⟩
  else
    let source :=
      if item.slideIndex < st.prs.slides.length then
        (st.prs.slides.get? item.slideIndex).getD defaultSlide
      else
        (st.prs.slides.get? 0).getD defaultSlide
    let res := populate_single_slide (cloneSlide source) item.data
    ⟨⟨st.prs.slides ++ [res.1]⟩, usage2,
      st.totalFields + res.2.length, st.slidesCreated + 1⟩

/-- populate_multi_slide from service.py: errors on an empty template,
else folds the instruction loop and returns the document, the total
field count and the number of slides created. -/
def populate_multi_slide (prs : PresDoc) (slides_data : List Instr) :
    Option (PresDoc × Nat × Nat) :=
  if prs.slides.length = 0 then none
  else
    let final := slides_data.foldl orchStep ⟨prs, [], 0, 0⟩
    some (final.prs, final.totalFields, final.slidesCreated)

/-- The clone-source rule as the claim words it: the source position is
checked against the slide count of the original, un-cloned template
(origLen) rather than the current, growing slide list; everything else
is the code's step. Used only to exhibit where the code departs from
that reading. -/
def orchStepOrigTemplate (origLen : Nat) (st : OrchState) (item : Instr) : OrchState :=
  let occUsage : Nat × List (Nat × Nat) :=
    match usageLookup st.usage item.slideIndex with
    | none => (0, usageSet st.usage item.slideIndex 0)
    | some c => (c + 1, usageSet st.usage item.slideIndex (c + 1))
  let occ := occUsage.1
  let usage2 := occUsage.2
  if item.slideIndex < st.prs.slides.length ∧ occ = 0 then
    let slide := (st.prs.slides.get? item.slideIndex).getD defaultSlide
    let res := populate_single_slide slide item.data
    ⟨⟨st.prs.slides.set item.slideIndex res.1⟩, usage2,
      st.totalFields + res.2.length, st.slidesCreated⟩
  else
    let source :=
      if item.slideIndex < origLen then
        (st.prs.slides.get? item.slideIndex).getD defaultSlide
      else
        (st.prs.slides.get? 0).getD defaultSlide
    let res := populate_single_slide (cloneSlide source) item.data
    ⟨⟨st.prs.slides ++ [res.1]⟩, usage2,
      st.totalFields + res.2.length, st.slidesCreated + 1⟩

/-- populate_multi_slide under the claim's original-template clone-source
rule. -/
def multiSlideOrigTemplateRule (prs : PresDoc) (slides_data : List Instr) :
    Option (PresDoc × Nat × Nat) :=
  if prs.slides.length = 0 then none
  else
    let final := slides_data.foldl (orchStepOrigTemplate prs.slides.length) ⟨prs, [], 0, 0⟩
    some (final.prs, final.totalFields, final.slidesCreated)

/-- A styled segment produced by inline markup parsing. -/
structure Segment where
  text : List Char
  bold : Bool
  italic : Bool
  underline : Bool
deriving DecidableEq, Repr

/-- A character that a backslash escapes in the markup grammar. -/
def escapable (c : Char) : Bool := c = '*' ∨ c = '_'

/-- Modelled from the spec: escape resolution of the InlineMarkupParser
(the parser implementation is absent from src/, only its tests remain);
a backslash immediately preceding an asterisk or underscore is dropped
and the character emitted literally. -/
def unescape : List Char → List Char
  | [] => []
  | '\\' :: c :: rest =>
    if escapable c then c :: unescape rest else '\\' :: unescape (c :: rest)
  | c :: rest => c :: unescape rest

/-- Modelled from the spec: non-greedy search for the earliest closing
marker, never matching inside an escape pair; returns the content before
the closer and the rest after it. -/
def findCloser (cl : List Char) : List Char → Option (List Char × List Char)
  | [] => none
  | c :: rest =>
    if c = '\\' then
      match rest with
      | [] => none
      | c2 :: rest2 =>
        if escapable c2 then
          match findCloser cl rest2 with
          | some (pre, post) => some ('\\' :: c2 :: pre, post)
          | none => none
        else
          match findCloser cl (c2 :: rest2) with
          | some (pre, post) => some ('\\' :: pre, post)
          | none => none
    else if cl.isPrefixOf (c :: rest) then some ([], (c :: rest).drop cl.length)
    else
      match findCloser cl rest with
      | some (pre, post) => some (c :: pre, post)
      | none => none


theorem findCloser_length (cl : List Char) (l : List Char) :
    ∀ pre post, findCloser cl l = some (pre, post) → post.length + cl.length ≤ l.length := by
  induction l using findCloser.induct cl with
  | case1 =>
    intro pre post h
    simp [findCloser] at h
  | case2 =>
    intro pre post h
    simp [findCloser] at h
  | case3 c rest hesc p1 p2 hf ih =>
    intro pre post h
    rw [findCloser.eq_def] at h
    simp [hesc, hf] at h
    obtain ⟨h1, h2⟩ := h
    have := ih p1 p2 hf
    subst h2
    simp
    omega
  | case4 c rest hesc hf ih =>
    intro pre post h
    rw [findCloser.eq_def] at h
    simp [hesc, hf] at h
  | case5 c rest hesc p1 p2 hf ih =>
    intro pre post h
    rw [findCloser.eq_def] at h
    simp [hesc, hf] at h
    obtain ⟨h1, h2⟩ := h
    have := ih p1 p2 hf
    subst h2
    simp at this ⊢
    omega
  | case6 c rest hesc hf ih =>
    intro pre post h
    rw [findCloser.eq_def] at h
    simp [hesc, hf] at h
  | case7 c rest hc hpre =>
    intro pre post h
    rw [findCloser.eq_def] at h
    simp [hc, hpre] at h
    have hle : cl.length ≤ (c :: rest).length :=
      (List.isPrefixOf_iff_prefix.mp hpre).length_le
    obtain ⟨h1, h2⟩ := h
    subst h2
    simp at hle ⊢
    omega
  | case8 c rest hc hpre p1 p2 hf ih =>
    intro pre post h
    rw [findCloser.eq_def] at h
    simp [hc, hpre, hf] at h
    obtain ⟨h1, h2⟩ := h
    have := ih p1 p2 hf
    subst h2
    simp
    omega
  | case9 c rest hc hpre hf ih =>
    intro pre post h
    rw [findCloser.eq_def] at h
    simp [hc, hpre, hf] at h

/-- Modelled from the spec: the marker table of the InlineMarkupParser,
opening marker / closing marker / bold / italic / underline, ordered
longest-marker-first as §4.2 and §9 of the spec require. -/
def markerTable : List (List Char × List Char × Bool × Bool × Bool) :=
  [ (['*', '*', '*', '_', '_'], ['_', '_', '*', '*', '*'], true, true, true),
    (['_', '_', '*', '*', '*'], ['*', '*', '*', '_', '_'], true, true, true),
    (['*', '*', '_', '_'], ['_', '_', '*', '*'], true, false, true),
    (['_', '_', '*', '*'], ['*', '*', '_', '_'], true, false, true),
    (['*', '*', '*'], ['*', '*', '*'], true, true, false),
    (['*', '_', '_'], ['_', '_', '*'], false, true, true),
    (['_', '_', '*'], ['*', '_', '_'], false, true, true),
    (['*', '*'], ['*', '*'], true, false, false),
    (['_', '_'], ['_', '_'], false, false, true),
    (['*'], ['*'], false, true, false) ]

/-- Modelled from the spec: try each marker pair in table order at the
head of the text; a pair matches when its opener is a prefix and its
closer occurs later (non-greedy, earliest occurrence); the match yields
the styled segment (escapes resolved) and the unconsumed rest. -/
def tryMarkerIn (l : List Char) :
    List (List Char × List Char × Bool × Bool × Bool) → Option (Segment × List Char)
  | [] => none
  | (op, cl, b, i, u) :: entries =>
    if op.isPrefixOf l then
      match findCloser cl (l.drop op.length) with
      | some (content, post) => some (⟨unescape content, b, i, u⟩, post)
      | none => tryMarkerIn l entries
    else tryMarkerIn l entries

theorem tryMarkerIn_length (l : List Char)
    (entries : List (List Char × List Char × Bool × Bool × Bool))
    (hwf : ∀ e ∈ entries, e.1 ≠ [] ∧ e.2.1 ≠ []) (seg : Segment) (post : List Char)
    (h : tryMarkerIn l entries = some (seg, post)) : post.length < l.length := by
  induction entries with
  | nil => simp [tryMarkerIn] at h
  | cons e entries ih =>
    obtain ⟨op, cl, b, i, u⟩ := e
    rw [tryMarkerIn] at h
    split at h
    · next hpre =>
      cases hf : findCloser cl (l.drop op.length) with
      | none =>
        rw [hf] at h
        exact ih (fun e he => hwf e (List.mem_cons_of_mem _ he)) h
      | some pr =>
        rw [hf] at h
        simp at h
        obtain ⟨h1, h2⟩ := h
        have hcl := findCloser_length cl (l.drop op.length) pr.1 pr.2 (by rw [hf])
        have hople : op.length ≤ l.length :=
          (List.isPrefixOf_iff_prefix.mp hpre).length_le
        have hop : op ≠ [] := (hwf (op, cl, b, i, u) (List.mem_cons_self _ _)).1
        have hclne : cl ≠ [] := (hwf (op, cl, b, i, u) (List.mem_cons_self _ _)).2
        have hop1 : 1 ≤ op.length := List.length_pos.mpr hop
        have hcl1 : 1 ≤ cl.length := List.length_pos.mpr hclne
        rw [List.length_drop] at hcl
        subst h2
        omega
    · exact ih (fun e he => hwf e (List.mem_cons_of_mem _ he)) h

/-- Modelled from the spec: first matching marker pair at the head of the
text, longest marker first. -/
def tryMarker (l : List Char) : Option (Segment × List Char) :=
  tryMarkerIn l markerTable

theorem tryMarker_length (l : List Char) (seg : Segment) (post : List Char)
    (h : tryMarker l = some (seg, post)) : post.length < l.length :=
  tryMarkerIn_length l markerTable (by decide) seg post h

/-- A pending unformatted gap flushed as its own segment when nonempty. -/
def flushBuf (buf : List Char) : List Segment :=
  if buf.isEmpty then [] else [⟨buf, false, false, false⟩]

/-- Modelled from the spec: the left-to-right scan of the
InlineMarkupParser; at each position the marker pairs are tried, plain
characters (with escapes resolved) accumulate into unformatted gap
segments; every step consumes at least one character, so fuel equal to
the text length suffices and keeps the recursion structural. -/
def parseScan : Nat → List Char → List Char → List Segment
  | _, buf, [] => flushBuf buf
  | 0, buf, l => flushBuf (buf ++ l)
  | fuel + 1, buf, c :: rest =>
    match tryMarker (c :: rest) with
    | some segPost => flushBuf buf ++ segPost.1 :: parseScan fuel [] segPost.2
    | none =>
      match rest with
      | c2 :: rest2 =>
        if c = '\\' ∧ escapable c2 then parseScan fuel (buf ++ [c2]) rest2
        else parseScan fuel (buf ++ [c]) (c2 :: rest2)
      | [] => parseScan fuel (buf ++ [c]) []

/-- Modelled from the spec: _parse_markdown_inline, absent from
src/service.py though imported by its tests; parses a text into styled
segments, an empty result degenerating to one empty plain segment. -/
def parse_markdown_inline (l : List Char) : List Segment :=
  let segs := parseScan l.length [] l
  if segs.isEmpty then [⟨[], false, false, false⟩] else segs

/-- Modelled from the spec: _has_markdown, the fast markup pre-check,
absent from src/service.py though imported by its tests; true iff the
text holds a non-escaped asterisk or a double underscore. -/
def has_markdown : List Char → Bool
  | [] => false
  | [c] => c = '*'
  | c1 :: c2 :: rest =>
    if c1 = '\\' ∧ (c2 = '*' ∨ c2 = '_') then has_markdown rest
    else if c1 = '*' then true
    else if c1 = '_' ∧ c2 = '_' then true
    else has_markdown (c2 :: rest)

/-- Modelled from the spec: the font of a run rendered for a styled
segment — the parsed bold/italic/underline plus the snapshot's other
attributes (family, size, color). -/
def segRunFont (snap : FontProps) (seg : Segment) : Font :=
  let base := apply_font_props Font.unset
    { snap with bold := none, italic := none, underline := none }
  { base with
    bold := some seg.bold
    italic := some seg.italic
    underline := some seg.underline }

/-- Modelled from the spec: rendering of one physical line parsed into
styled segments, one run per segment. -/
def renderMarkupLine (snap : FontProps) (line : List Char) : Paragraph :=
  ⟨(parse_markdown_inline line).map (fun seg => ⟨seg.text, segRunFont snap seg⟩), Font.unset⟩

/-- Modelled from the spec: the markup-aware text write of writeText
(_parse_and_apply_markdown, absent from src/service.py): capture the
snapshot, and when markup is detected parse each resulting physical
line independently and render it; without markup behave as the plain
populate_text_placeholder. -/
def populateTextFrameMarkup (tf : TextFrame) (text : List Char) : TextFrame :=
  match tf.paragraphs with
  | first :: _ =>
    let snap := snapshotOfFirstParagraph first
    if has_markdown text then ⟨(splitLines text).map (renderMarkupLine snap)⟩
    else populateTextFrame tf text
  | [] => tf.setText text

/-- Example template text frame: one paragraph, one run carrying an
explicit font (Arial 14, as in the repository's test template). -/
def tfEx : TextFrame :=
  ⟨[⟨[⟨"Template Text".data,
      ⟨some "Arial", some 14, some false, some false, none, none, none, none⟩⟩],
    Font.unset⟩]⟩

/-- Example text-container shape holding tfEx. -/
def shapeEx : Shape := ⟨"test_placeholder", .text tfEx, false⟩

instance : Inhabited Paragraph := ⟨⟨[], Font.unset⟩⟩

/-- C1: a write into a text container with at least one existing
paragraph captures a snapshot from the first paragraph (first run if
present, else paragraph level) and, after the replacement, applies it
to the run of every paragraph produced — one paragraph per line of the
written text, each holding one run styled by the snapshot's non-unset
attributes. -/
theorem text_write_snapshot_every_paragraph
    (shape : Shape) (tf : TextFrame) (text : List Char)
    (hc : shape.content = .text tf) (h : tf.paragraphs ≠ []) :
    populate_text_placeholder shape text =
      ({ shape with content := .text ⟨(splitLines text).map (fun line =>
          ⟨[⟨line, apply_font_props Font.unset
              (snapshotOfFirstParagraph tf.paragraphs.headI)⟩], Font.unset⟩)⟩ }, true) := by
  cases htf : tf.paragraphs with
  | nil => exact absurd htf h
  | cons first rest =>
    simp only [populate_text_placeholder, hc, populateTextFrame, htf, TextFrame.setText,
      List.map_map, List.headI]
    simp [Function.comp, restoreParagraph]

/-- Witness for C1 at a concrete two-line write into shapeEx. -/
theorem text_write_snapshot_every_paragraph_witness :
    populate_text_placeholder shapeEx "Line 1\nLine 2".data =
      ({ shapeEx with content := .text ⟨[
          ⟨[⟨"Line 1".data,
            ⟨some "Arial", some 14, some false, some false, none, none, none, none⟩⟩], Font.unset⟩,
          ⟨[⟨"Line 2".data,
            ⟨some "Arial", some 14, some false, some false, none, none, none, none⟩⟩], Font.unset⟩]⟩ }, true) := by
  rw [text_write_snapshot_every_paragraph shapeEx tfEx "Line 1\nLine 2".data rfl (by decide)]
  decide

/-- Text shown by the named element of a slide (empty when absent):
extraction helper for concrete runs. -/
def slideFieldText (s : Slide) (name : String) : List Char :=
  match find_shape_by_name s name with
  | some sh =>
    match sh.content with
    | .text tf => tf.getText
    | .bare t => t
    | _ => []
  | none => []

/-- One-slide template whose single text shape is named "t". -/
def prsOne : PresDoc :=
  ⟨[⟨[⟨"t", .text ⟨[⟨[⟨"orig".data, Font.unset⟩], Font.unset⟩]⟩, false⟩], ⟨[]⟩⟩]⟩

/-- Instruction list exposing the clone-source rule: two references to
slide 0, then two references to slide 1, a position that exists only
among the clones. -/
def instrsC2 : List Instr :=
  [⟨0, [("t", .vstr "A")]⟩, ⟨0, [("t", .vstr "B")]⟩, ⟨1, [("t", .vstr "C")]⟩, ⟨1, []⟩]

/-- C2 counterexample: the code resolves the clone source against the
current slide list, clones included — the fourth instruction clones the
slide at position 1, which is itself a clone holding "C"; under the
claim's original-template rule the source would be slide 0 holding "A". -/
theorem orchestrator_clone_source_counterexample :
    (populate_multi_slide prsOne instrsC2).map
      (fun r => r.1.slides.map (fun s => slideFieldText s "t"))
      = some ["A".data, "C".data, "C".data] ∧
    (multiSlideOrigTemplateRule prsOne instrsC2).map
      (fun r => r.1.slides.map (fun s => slideFieldText s "t"))
      = some ["A".data, "C".data, "A".data] ∧
    populate_multi_slide prsOne instrsC2 ≠ multiSlideOrigTemplateRule prsOne instrsC2 := by
  refine ⟨by decide, by decide, by decide⟩

/-- C2 amended: per instruction the code populates in place exactly when
the reference is a position of the current slide list with occurrence 0;
otherwise it appends a clone whose source is the slide at the reference
position of the current slide list when that position exists there (so
clones created by earlier instructions are eligible sources), else the
slide at position 0; the clone holds the layout placeholders stripped of
auto-generated placeholder shapes followed by copies of every source
shape in order. -/
theorem orchestrator_step_amended (st : OrchState) (item : Instr) :
    ((item.slideIndex < st.prs.slides.length ∧
        (match usageLookup st.usage item.slideIndex with
          | none => 0
          | some c => c + 1) = 0) →
      (orchStep st item).prs.slides =
        st.prs.slides.set item.slideIndex
          (populate_single_slide
            ((st.prs.slides.get? item.slideIndex).getD defaultSlide) item.data).1 ∧
      (orchStep st item).slidesCreated = st.slidesCreated) ∧
    (¬ (item.slideIndex < st.prs.slides.length ∧
        (match usageLookup st.usage item.slideIndex with
          | none => 0
          | some c => c + 1) = 0) →
      ∀ source,
        source = (if item.slideIndex < st.prs.slides.length
          then (st.prs.slides.get? item.slideIndex).getD defaultSlide
          else (st.prs.slides.get? 0).getD defaultSlide) →
        (orchStep st item).prs.slides =
          st.prs.slides ++ [(populate_single_slide
            ⟨source.layout.placeholders.filter (fun s => ¬ s.isPlaceholder) ++ source.shapes,
              source.layout⟩ item.data).1] ∧
        (orchStep st item).slidesCreated = st.slidesCreated + 1) := by
  constructor
  · intro hcond
    obtain ⟨h1, h2⟩ := hcond
    cases husage : usageLookup st.usage item.slideIndex with
    | none => simp [orchStep, husage, h1]
    | some c => rw [husage] at h2; simp at h2
  · intro hcond source hsource
    subst hsource
    cases husage : usageLookup st.usage item.slideIndex with
    | none =>
      rw [husage] at hcond
      have ha : ¬ item.slideIndex < st.prs.slides.length := fun ha => hcond ⟨ha, rfl⟩
      simp [orchStep, husage, ha, cloneSlide]
    | some c =>
      simp [orchStep, husage, cloneSlide]

/-- Witness for the amended C2 at a concrete in-place instruction and a
concrete cloning instruction. -/
theorem orchestrator_step_amended_witness :
    ((orchStep ⟨prsOne, [], 0, 0⟩ ⟨0, []⟩).prs.slides =
        prsOne.slides.set 0
          (populate_single_slide ((prsOne.slides.get? 0).getD defaultSlide) []).1 ∧
      (orchStep ⟨prsOne, [], 0, 0⟩ ⟨0, []⟩).slidesCreated = 0) ∧
    ((orchStep ⟨prsOne, [(0, 0)], 0, 0⟩ ⟨0, []⟩).prs.slides =
        prsOne.slides ++ [(populate_single_slide
          ⟨(((prsOne.slides.get? 0).getD defaultSlide).layout.placeholders.filter
              (fun s => ¬ s.isPlaceholder)) ++ ((prsOne.slides.get? 0).getD defaultSlide).shapes,
            ((prsOne.slides.get? 0).getD defaultSlide).layout⟩ []).1] ∧
      (orchStep ⟨prsOne, [(0, 0)], 0, 0⟩ ⟨0, []⟩).slidesCreated = 1) := by
  constructor
  · exact (orchestrator_step_amended ⟨prsOne, [], 0, 0⟩ ⟨0, []⟩).1 (by decide)
  · exact (orchestrator_step_amended ⟨prsOne, [(0, 0)], 0, 0⟩ ⟨0, []⟩).2 (by decide) _ rfl

/-- The three instructions of C3, all referencing slide 0. -/
def instrsC3 : List Instr :=
  [⟨0, [("t", .vstr "T1")]⟩, ⟨0, [("t", .vstr "T2")]⟩, ⟨0, [("t", .vstr "T3")]⟩]

/-- C3: three instructions referencing slide 0 of a one-slide template
populate the existing slide in place (it ends holding the first
instruction's text) and clone twice, so slidesCloned is 2 and the final
document has exactly 3 slides. -/
theorem orchestrator_three_instructions_one_template :
    (populate_multi_slide prsOne instrsC3).map
      (fun r => (r.1.slides.length, r.2.2,
        r.1.slides.map (fun s => slideFieldText s "t")))
      = some (3, 2, ["T1".data, "T2".data, "T3".data]) := by
  decide

/-- A slide holding one shape named "x" and one literally named "x_5". -/
def slideC5 : Slide := ⟨[⟨"x", .other, false⟩, ⟨"x_5", .other, false⟩], ⟨[]⟩⟩

/-- C5 counterexample: the lookup name "x_5" is the suffix form with
base "x" and index 5, fewer than 6 elements named "x" exist, and yet
the resolver returns the element literally named "x_5" — the code falls
through to the direct whole-name scan instead of failing. -/
theorem resolver_no_fallback_counterexample :
    splitSuffix "x_5" = some ("x", 5) ∧
    (slideC5.shapes.filter (fun s => s.sname = "x")).length ≤ 5 ∧
    find_shape_by_name slideC5 "x_5" = some ⟨"x_5", .other, false⟩ := by
  refine ⟨by decide, by decide, by decide⟩

/-- C5 amended: when the name carries a _N suffix but fewer than N+1
elements with the base raw name exist, the resolver falls back to the
direct whole-name equality scan — so it returns the first element whose
whole name equals the lookup name, and not-found only when there is
none. -/
theorem resolver_suffix_fallback (slide : Slide) (name base : String) (idx : Nat)
    (hs : splitSuffix name = some (base, idx))
    (hlen : (slide.shapes.filter (fun s => s.sname = base)).length ≤ idx) :
    find_shape_by_name slide name = slide.shapes.find? (fun s => s.sname = name) := by
  unfold find_shape_by_name
  rw [hs]
  have hnone : (slide.shapes.filter (fun s => s.sname = base)).get? idx = none :=
    List.get?_eq_none.mpr hlen
  rw [List.get?_eq_getElem?] at hnone
  simp [hnone]

/-- Witness for the amended C5 on slideC5 itself. -/
theorem resolver_suffix_fallback_witness :
    find_shape_by_name slideC5 "x_5" =
      slideC5.shapes.find? (fun s => s.sname = "x_5") :=
  resolver_suffix_fallback slideC5 "x_5" "x" 5 (by decide) (by decide)

/-- First element named "x" of the C6 slide. -/
def shapeX1 : Shape := ⟨"x", .bare ['1'], false⟩

/-- Second element named "x" of the C6 slide. -/
def shapeX2 : Shape := ⟨"x", .bare ['2'], false⟩

/-- The element named "y" of the C6 slide. -/
def shapeY : Shape := ⟨"y", .other, false⟩

/-- Slide with elements named x, x, y in that order. -/
def slideC6 : Slide := ⟨[shapeX1, shapeX2, shapeY], ⟨[]⟩⟩

/-- C6: a name of the form base_N resolves to the N-th (0-based, slide
order) element whose raw name is the base whenever that many exist; a
name not of that form resolves by first-match whole-name scan; on the
x, x, y slide: x_1 is the second x, x_5 is not found, y is the y
element. -/
theorem resolver_semantics :
    (∀ (slide : Slide) (name base : String) (idx : Nat) (sh : Shape),
        splitSuffix name = some (base, idx) →
        (slide.shapes.filter (fun s => s.sname = base)).get? idx = some sh →
        find_shape_by_name slide name = some sh) ∧
    (∀ (slide : Slide) (name : String), splitSuffix name = none →
        find_shape_by_name slide name = slide.shapes.find? (fun s => s.sname = name)) ∧
    find_shape_by_name slideC6 "x_1" = some shapeX2 ∧
    find_shape_by_name slideC6 "x_5" = none ∧
    find_shape_by_name slideC6 "y" = some shapeY := by
  refine ⟨?_, ?_, by decide, by decide, by decide⟩
  · intro slide name base idx sh hs hget
    unfold find_shape_by_name
    rw [hs]
    rw [List.get?_eq_getElem?] at hget
    simp [hget]
  · intro slide name hs
    unfold find_shape_by_name
    rw [hs]

/-- Witness for C6 at a concrete suffix lookup and a concrete direct
lookup. -/
theorem resolver_semantics_witness :
    find_shape_by_name slideC6 "x_0" = some shapeX1 ∧
    find_shape_by_name slideC6 "y" = slideC6.shapes.find? (fun s => s.sname = "y") := by
  constructor
  · exact resolver_semantics.1 slideC6 "x_0" "x" 0 shapeX1 (by decide) (by decide)
  · exact resolver_semantics.2.1 slideC6 "y" (by decide)

/-- Applying captured properties to a fresh unset font yields exactly the
captured attributes (color type recomputed by the apply rule). -/
theorem apply_font_props_unset (p : FontProps) :
    apply_font_props Font.unset p =
      ⟨p.fname, p.size, p.bold, p.italic, p.underline,
        if p.colorRgb.isSome then some 1
          else if p.colorTheme.isSome then some 2 else none,
        p.colorRgb,
        if p.colorRgb.isSome then none else p.colorTheme⟩ := by
  rcases p with ⟨f, s, b, i, u, ct, cr, cth⟩
  simp only [apply_font_props, Font.unset]
  cases f <;> cases s <;> cases b <;> cases i <;> cases u <;> cases cr <;> cases cth <;> rfl

/-- C7: writing text free of asterisks and underscores into a text
container leaves the full text verbatim, produces one paragraph per
line with exactly one run each, and the runs carry no bold, italic or
underline beyond what the captured snapshot held. -/
theorem plain_text_write_verbatim
    (shape : Shape) (tf : TextFrame) (text : List Char)
    (hc : shape.content = .text tf) (h : tf.paragraphs ≠ [])
    (hstar : '*' ∉ text) (hund : '_' ∉ text) :
    (populate_text_placeholder shape text).2 = true ∧
    ∃ tf2, (populate_text_placeholder shape text).1.content = .text tf2 ∧
      tf2.getText = text ∧
      tf2.paragraphs.length = (splitLines text).length ∧
      (∀ p ∈ tf2.paragraphs, p.runs.length = 1) ∧
      (∀ p ∈ tf2.paragraphs, ∀ r ∈ p.runs,
        r.font.bold = (snapshotOfFirstParagraph tf.paragraphs.headI).bold ∧
        r.font.italic = (snapshotOfFirstParagraph tf.paragraphs.headI).italic ∧
        r.font.underline = (snapshotOfFirstParagraph tf.paragraphs.headI).underline) := by
  have key := text_write_snapshot_every_paragraph shape tf text hc h
  constructor
  · rw [key]
  · refine ⟨⟨(splitLines text).map (fun line =>
      ⟨[⟨line, apply_font_props Font.unset
          (snapshotOfFirstParagraph tf.paragraphs.headI)⟩], Font.unset⟩)⟩,
      by rw [key], ?_, ?_, ?_, ?_⟩
    · simp only [TextFrame.getText, List.map_map]
      have : ((fun p => (List.map TRun.text p.runs).flatten) ∘ fun line =>
          (⟨[⟨line, apply_font_props Font.unset
            (snapshotOfFirstParagraph tf.paragraphs.headI)⟩], Font.unset⟩ : Paragraph))
          = fun line => line := by
        funext line
        simp
      rw [this, List.map_id', joinLines_splitLines]
    · simp
    · intro p hp
      simp only [List.mem_map] at hp
      obtain ⟨line, _, hline⟩ := hp
      subst hline
      rfl
    · intro p hp r hr
      simp only [List.mem_map] at hp
      obtain ⟨line, _, hline⟩ := hp
      subst hline
      simp only [List.mem_singleton] at hr
      subst hr
      simp [apply_font_props_unset]

/-- Witness for C7 at a concrete markup-free two-line write. -/
theorem plain_text_write_verbatim_witness :
    (populate_text_placeholder shapeEx "Hello\nWorld".data).2 = true ∧
    ∃ tf2, (populate_text_placeholder shapeEx "Hello\nWorld".data).1.content = .text tf2 ∧
      tf2.getText = "Hello\nWorld".data ∧
      tf2.paragraphs.length = (splitLines "Hello\nWorld".data).length ∧
      (∀ p ∈ tf2.paragraphs, p.runs.length = 1) ∧
      (∀ p ∈ tf2.paragraphs, ∀ r ∈ p.runs,
        r.font.bold = (snapshotOfFirstParagraph tfEx.paragraphs.headI).bold ∧
        r.font.italic = (snapshotOfFirstParagraph tfEx.paragraphs.headI).italic ∧
        r.font.underline = (snapshotOfFirstParagraph tfEx.paragraphs.headI).underline) :=
  plain_text_write_verbatim shapeEx tfEx "Hello\nWorld".data rfl (by decide)
    (by decide) (by decide)

/-- C8: when markup is detected, the write parses each physical line
independently into styled segments and renders one run per segment,
each run carrying the parsed bold/italic/underline plus the snapshot's
other attributes; and parsing "**bold**" yields exactly one segment,
text "bold", bold only. -/
theorem markup_write_renders_segments :
    (∀ (tf : TextFrame) (text : List Char) (first : Paragraph) (rest : List Paragraph),
        tf.paragraphs = first :: rest → has_markdown text = true →
        populateTextFrameMarkup tf text =
          ⟨(splitLines text).map (fun line =>
            ⟨(parse_markdown_inline line).map (fun seg =>
              ⟨seg.text, segRunFont (snapshotOfFirstParagraph first) seg⟩), Font.unset⟩)⟩) ∧
    parse_markdown_inline "**bold**".data = [⟨"bold".data, true, false, false⟩] := by
  constructor
  · intro tf text first rest htf hmd
    simp [populateTextFrameMarkup, htf, hmd, renderMarkupLine]
  · decide

/-- Witness for C8: the markup write applied to the example frame. -/
theorem markup_write_renders_segments_witness :
    populateTextFrameMarkup tfEx "**bold**".data =
      ⟨(splitLines "**bold**".data).map (fun line =>
        ⟨(parse_markdown_inline line).map (fun seg =>
          ⟨seg.text, segRunFont (snapshotOfFirstParagraph
            ⟨[⟨"Template Text".data,
              ⟨some "Arial", some 14, some false, some false, none, none, none, none⟩⟩],
              Font.unset⟩) seg⟩), Font.unset⟩)⟩ :=
  markup_write_renders_segments.1 tfEx "**bold**".data _ _ rfl (by decide)

/-- C10: in the multi-slide path a base_skip_header entry is also
written as text — with a field map pairing a grid under "k" with a flag
under "k_skip_header", and a slide holding a table named "k" and a text
box named "k_skip_header", the flag's str() value lands in the text box
and the flag key counts toward the populated fields. -/
theorem skip_header_flag_written_as_text
    (b : Bool) (rows : List (List CellVal)) (tbl : Table) (tf : TextFrame) :
    (populate_single_slide
        ⟨[⟨"k", .table tbl, false⟩, ⟨"k_skip_header", .text tf, false⟩], ⟨[]⟩⟩
        [("k", .vgrid rows), ("k_skip_header", .vbool b)]).2
      = ["k_skip_header", "k"] ∧
    ((populate_single_slide
        ⟨[⟨"k", .table tbl, false⟩, ⟨"k_skip_header", .text tf, false⟩], ⟨[]⟩⟩
        [("k", .vgrid rows), ("k_skip_header", .vbool b)]).1.shapes.get? 1).map Shape.content
      = some (.text (populateTextFrame tf (Value.vbool b).pyStr)) := by
  have hs1 : find_shape_index
      ⟨[⟨"k", .table tbl, false⟩, ⟨"k_skip_header", .text tf, false⟩], ⟨[]⟩⟩
      "k_skip_header" = some 1 := by
    simp [find_shape_index, splitSuffix, List.findIdx?]
  constructor
  · simp [populate_single_slide, textPassStep, tablePassStep, hs1,
      populate_text_placeholder, slideSetShape, find_shape_index, splitSuffix,
      List.findIdx?, populate_table, Value.isList]
  · simp [populate_single_slide, textPassStep, tablePassStep, hs1,
      populate_text_placeholder, slideSetShape, find_shape_index, splitSuffix,
      List.findIdx?, populate_table, Value.isList]

/-- Cell at given row and column of a table, when present. -/
def cellGet (tbl : Table) (r c : Nat) : Option Cell :=
  (tbl.rows.get? r).bind (fun row => row.get? c)

/-- Row-local effect of one cell assignment. -/
def rowModify (row : List Cell) (c : Nat) (f : Cell → Cell) : List Cell :=
  match row.get? c with
  | none => row
  | some cell => row.set c (f cell)

theorem get?_ne_none_lt {α : Type} (l : List α) (n : Nat) (a : α)
    (h : l.get? n = some a) : n < l.length := by
  by_contra hge
  rw [List.get?_eq_getElem?, List.getElem?_eq_none (by omega)] at h
  exact absurd h (by simp)

theorem rowModify_get (row : List Cell) (c : Nat) (f : Cell → Cell) (c' : Nat) :
    (rowModify row c f)[c']? = if c' = c then (row[c']?).map f else row[c']? := by
  unfold rowModify
  split
  · next hc =>
    rw [List.get?_eq_getElem?] at hc
    by_cases h : c' = c
    · subst h
      simp [List.get?_eq_getElem?, hc]
    · simp [h]
  · next cell hc =>
    have hclt := get?_ne_none_lt _ _ _ hc
    rw [List.get?_eq_getElem?] at hc
    simp only [List.get?_eq_getElem?, List.getElem?_set]
    by_cases h : c' = c
    · subst h
      simp [hc, hclt]
    · simp [h, Ne.symm h]

theorem tableModifyCell_rows (tbl : Table) (r c : Nat) (f : Cell → Cell) (r' : Nat) :
    (tableModifyCell tbl r c f).rows[r']? =
      if r' = r then (tbl.rows[r]?).map (fun row => rowModify row c f)
      else tbl.rows[r']? := by
  unfold tableModifyCell
  split
  · next hr =>
    rw [List.get?_eq_getElem?] at hr
    by_cases h : r' = r
    · subst h
      simp [List.get?_eq_getElem?, hr]
    · simp [h]
  · next row hr =>
    split
    · next hc =>
      rw [List.get?_eq_getElem?] at hc
      by_cases h : r' = r
      · subst h
        rw [List.get?_eq_getElem?] at hr
        simp [List.get?_eq_getElem?, hr, rowModify, hc]
      · simp [h]
    · next cell hc =>
      have hrlt := get?_ne_none_lt _ _ _ hr
      rw [List.get?_eq_getElem?] at hr
      rw [List.get?_eq_getElem?] at hc
      simp only [List.get?_eq_getElem?, List.getElem?_set]
      by_cases h : r' = r
      · subst h
        simp [hr, hrlt, rowModify, hc]
      · simp [h, Ne.symm h]

theorem tableModifyCell_nCols (tbl : Table) (r c : Nat) (f : Cell → Cell) :
    (tableModifyCell tbl r c f).nCols = tbl.nCols := by
  unfold tableModifyCell
  split
  · rfl
  · split
    · rfl
    · rfl

theorem tableModifyCell_length (tbl : Table) (r c : Nat) (f : Cell → Cell) :
    (tableModifyCell tbl r c f).rows.length = tbl.rows.length := by
  unfold tableModifyCell
  split
  · rfl
  · split
    · rfl
    · simp

theorem cellGet_modify (tbl : Table) (r c : Nat) (f : Cell → Cell) (r' c' : Nat) :
    cellGet (tableModifyCell tbl r c f) r' c' =
      if r' = r ∧ c' = c then (cellGet tbl r c).map f else cellGet tbl r' c' := by
  simp only [cellGet, List.get?_eq_getElem?]
  rw [tableModifyCell_rows]
  by_cases h1 : r' = r
  · subst h1
    rw [if_pos rfl]
    by_cases h2 : c' = c
    · subst h2
      rw [if_pos ⟨rfl, rfl⟩]
      cases hr : tbl.rows[r']? with
      | none => simp [hr]
      | some row => simp [hr, rowModify_get]
    · rw [if_neg (by tauto)]
      cases hr : tbl.rows[r']? with
      | none => simp [hr]
      | some row => simp [hr, rowModify_get, h2]
  · rw [if_neg h1, if_neg (by tauto)]

/-- The cell update performed for one data value. -/
def writeCellFn (v : CellVal) : Cell → Cell :=
  fun cell => ⟨populateTextFrame cell.tf v.pyStr⟩

theorem tableWriteCell_eq (tbl : Table) (r c : Nat) (v : CellVal) :
    tableWriteCell tbl r c v = tableModifyCell tbl r c (writeCellFn v) := rfl

theorem tableWriteRowGo_nCols (r : Nat) (vs : List CellVal) :
    ∀ (tbl : Table) (c : Nat), (tableWriteRowGo r tbl c vs).nCols = tbl.nCols := by
  induction vs with
  | nil => intro tbl c; rfl
  | cons v rest ih =>
    intro tbl c
    rw [tableWriteRowGo]
    split
    · rfl
    · rw [ih, tableWriteCell_eq, tableModifyCell_nCols]

theorem tableWriteRowGo_length (r : Nat) (vs : List CellVal) :
    ∀ (tbl : Table) (c : Nat), (tableWriteRowGo r tbl c vs).rows.length = tbl.rows.length := by
  induction vs with
  | nil => intro tbl c; rfl
  | cons v rest ih =>
    intro tbl c
    rw [tableWriteRowGo]
    split
    · rfl
    · rw [ih, tableWriteCell_eq, tableModifyCell_length]

theorem tableWriteRowGo_cell (r : Nat) (vs : List CellVal) :
    ∀ (tbl : Table) (c : Nat) (r' c' : Nat),
    cellGet (tableWriteRowGo r tbl c vs) r' c' =
      if r' = r ∧ c ≤ c' ∧ c' < c + vs.length ∧ c' < tbl.nCols then
        (cellGet tbl r' c').map (writeCellFn (vs.getD (c' - c) (.cs "")))
      else cellGet tbl r' c' := by
  induction vs with
  | nil =>
    intro tbl c r' c'
    rw [tableWriteRowGo, if_neg (by simp only [List.length_nil]; omega)]
  | cons v rest ih =>
    intro tbl c r' c'
    rw [tableWriteRowGo]
    split
    · next hge => rw [if_neg (by simp only [List.length_cons]; omega)]
    · next hlt =>
      push_neg at hlt
      rw [ih, tableWriteCell_eq, tableModifyCell_nCols, cellGet_modify]
      simp only [List.length_cons]
      by_cases hr' : r' = r
      · subst hr'
        by_cases hc' : c' = c
        · rw [if_neg (show ¬(r' = r' ∧ c + 1 ≤ c' ∧ c' < c + 1 + rest.length ∧ c' < tbl.nCols)
                by omega),
            if_pos (show r' = r' ∧ c' = c from ⟨rfl, hc'⟩),
            if_pos (show r' = r' ∧ c ≤ c' ∧ c' < c + (rest.length + 1) ∧ c' < tbl.nCols
                by omega)]
          rw [hc']
          simp
        · by_cases hin : c + 1 ≤ c' ∧ c' < c + 1 + rest.length ∧ c' < tbl.nCols
          · rw [if_pos (show r' = r' ∧ c + 1 ≤ c' ∧ c' < c + 1 + rest.length ∧ c' < tbl.nCols
                  from ⟨rfl, hin.1, hin.2.1, hin.2.2⟩),
              if_neg (show ¬(r' = r' ∧ c' = c) by tauto),
              if_pos (show r' = r' ∧ c ≤ c' ∧ c' < c + (rest.length + 1) ∧ c' < tbl.nCols
                  by omega)]
            rw [show c' - c = (c' - (c + 1)) + 1 by omega, List.getD_cons_succ]
          · rw [if_neg (show ¬(r' = r' ∧ c + 1 ≤ c' ∧ c' < c + 1 + rest.length ∧ c' < tbl.nCols)
                  by omega),
              if_neg (show ¬(r' = r' ∧ c' = c) by tauto),
              if_neg (show ¬(r' = r' ∧ c ≤ c' ∧ c' < c + (rest.length + 1) ∧ c' < tbl.nCols)
                  by omega)]
      · rw [if_neg (show ¬(r' = r ∧ c + 1 ≤ c' ∧ c' < c + 1 + rest.length ∧ c' < tbl.nCols)
              by tauto),
          if_neg (show ¬(r' = r ∧ c' = c) by tauto),
          if_neg (show ¬(r' = r ∧ c ≤ c' ∧ c' < c + (rest.length + 1) ∧ c' < tbl.nCols)
              by tauto)]

theorem tableWriteRows_nCols (start : Nat) (data : List (List CellVal)) :
    ∀ (tbl : Table) (i : Nat), (tableWriteRows start tbl i data).nCols = tbl.nCols := by
  induction data with
  | nil => intro tbl i; rfl
  | cons row rest ih =>
    intro tbl i
    rw [tableWriteRows]
    split
    · rfl
    · rw [ih, tableWriteRowGo_nCols]

theorem tableWriteRows_length (start : Nat) (data : List (List CellVal)) :
    ∀ (tbl : Table) (i : Nat),
      (tableWriteRows start tbl i data).rows.length = tbl.rows.length := by
  induction data with
  | nil => intro tbl i; rfl
  | cons row rest ih =>
    intro tbl i
    rw [tableWriteRows]
    split
    · rfl
    · rw [ih, tableWriteRowGo_length]

theorem tableWriteRows_cell (start : Nat) (data : List (List CellVal)) :
    ∀ (tbl : Table) (i : Nat) (r' c' : Nat),
    cellGet (tableWriteRows start tbl i data) r' c' =
      if start + i ≤ r' ∧ r' < start + i + data.length ∧ r' < tbl.rows.length ∧
          c' < (data.getD (r' - start - i) []).length ∧ c' < tbl.nCols then
        (cellGet tbl r' c').map
          (writeCellFn ((data.getD (r' - start - i) []).getD c' (.cs "")))
      else cellGet tbl r' c' := by
  induction data with
  | nil =>
    intro tbl i r' c'
    rw [tableWriteRows, if_neg (by simp only [List.length_nil]; omega)]
  | cons row rest ih =>
    intro tbl i r' c'
    rw [tableWriteRows]
    split
    · next hge => rw [if_neg (by simp only [List.length_cons]; omega)]
    · next hlt2 =>
      push_neg at hlt2
      rw [ih, tableWriteRowGo_length, tableWriteRowGo_nCols, tableWriteRowGo_cell]
      simp only [Nat.zero_add, Nat.sub_zero, Nat.zero_le, true_and, List.length_cons]
      by_cases hr : r' = i + start
      · by_cases hcc : c' < row.length ∧ c' < tbl.nCols
        · rw [if_neg (show ¬(start + (i + 1) ≤ r' ∧ r' < start + (i + 1) + rest.length ∧
                r' < tbl.rows.length ∧ c' < (rest.getD (r' - start - (i + 1)) []).length ∧
                c' < tbl.nCols) by omega),
            if_pos (show r' = i + start ∧ c' < row.length ∧ c' < tbl.nCols
                from ⟨hr, hcc.1, hcc.2⟩),
            show r' - start - i = 0 by omega]
          rw [if_pos (show start + i ≤ r' ∧ r' < start + i + (rest.length + 1) ∧
                r' < tbl.rows.length ∧ c' < ((row :: rest).getD 0 []).length ∧ c' < tbl.nCols
                by simp only [List.getD_cons_zero]; omega)]
          simp
        · rw [if_neg (show ¬(start + (i + 1) ≤ r' ∧ r' < start + (i + 1) + rest.length ∧
                r' < tbl.rows.length ∧ c' < (rest.getD (r' - start - (i + 1)) []).length ∧
                c' < tbl.nCols) by omega),
            if_neg (show ¬(r' = i + start ∧ c' < row.length ∧ c' < tbl.nCols) by tauto),
            show r' - start - i = 0 by omega]
          rw [if_neg (show ¬(start + i ≤ r' ∧ r' < start + i + (rest.length + 1) ∧
                r' < tbl.rows.length ∧ c' < ((row :: rest).getD 0 []).length ∧ c' < tbl.nCols)
                from fun h => hcc ⟨h.2.2.2.1, h.2.2.2.2⟩)]
      · by_cases hge0 : start + i ≤ r'
        · rw [show r' - start - i = (r' - start - (i + 1)) + 1 by omega, List.getD_cons_succ]
          by_cases hA : start + (i + 1) ≤ r' ∧ r' < start + (i + 1) + rest.length ∧
              r' < tbl.rows.length ∧ c' < (rest.getD (r' - start - (i + 1)) []).length ∧
              c' < tbl.nCols
          · rw [if_pos hA,
              if_neg (show ¬(r' = i + start ∧ c' < row.length ∧ c' < tbl.nCols) by tauto),
              if_pos (show start + i ≤ r' ∧ r' < start + i + (rest.length + 1) ∧
                  r' < tbl.rows.length ∧ c' < (rest.getD (r' - start - (i + 1)) []).length ∧
                  c' < tbl.nCols
                  from ⟨by omega, by omega, hA.2.2.1, hA.2.2.2.1, hA.2.2.2.2⟩)]
          · rw [if_neg hA,
              if_neg (show ¬(r' = i + start ∧ c' < row.length ∧ c' < tbl.nCols) by tauto),
              if_neg (show ¬(start + i ≤ r' ∧ r' < start + i + (rest.length + 1) ∧
                  r' < tbl.rows.length ∧ c' < (rest.getD (r' - start - (i + 1)) []).length ∧
                  c' < tbl.nCols)
                  from fun hC => hA ⟨by omega, by omega, hC.2.2.1, hC.2.2.2.1, hC.2.2.2.2⟩)]
        · rw [if_neg (show ¬(start + (i + 1) ≤ r' ∧ r' < start + (i + 1) + rest.length ∧
                r' < tbl.rows.length ∧ c' < (rest.getD (r' - start - (i + 1)) []).length ∧
                c' < tbl.nCols) by omega),
            if_neg (show ¬(r' = i + start ∧ c' < row.length ∧ c' < tbl.nCols) by tauto),
            if_neg (show ¬(start + i ≤ r' ∧ r' < start + i + (rest.length + 1) ∧
                r' < tbl.rows.length ∧ c' < ((row :: rest).getD (r' - start - i) []).length ∧
                c' < tbl.nCols) by tauto)]

/-- The cell update performed by the trailing clear. -/
def clearCellFn : Cell → Cell := fun cell => cell.setText []

theorem tableClearCell_eq (tbl : Table) (r c : Nat) :
    tableClearCell tbl r c = tableModifyCell tbl r c clearCellFn := rfl

theorem clearCellFn_idem (c : Cell) : clearCellFn (clearCellFn c) = clearCellFn c := rfl

/-- One row of the clear phase. -/
def clearRowBody (t : Table) (r : Nat) : Table :=
  (List.range t.nCols).foldl (fun t2 c => tableClearCell t2 r c) t

theorem clearColsFold_nCols (r : Nat) (cs : List Nat) :
    ∀ (t : Table), ((cs.foldl (fun t2 c => tableClearCell t2 r c) t)).nCols = t.nCols := by
  induction cs with
  | nil => intro t; rfl
  | cons c rest ih =>
    intro t
    rw [List.foldl_cons, ih, tableClearCell_eq, tableModifyCell_nCols]

theorem clearColsFold_length (r : Nat) (cs : List Nat) :
    ∀ (t : Table), ((cs.foldl (fun t2 c => tableClearCell t2 r c) t)).rows.length = t.rows.length := by
  induction cs with
  | nil => intro t; rfl
  | cons c rest ih =>
    intro t
    rw [List.foldl_cons, ih, tableClearCell_eq, tableModifyCell_length]

theorem clearRowFold_cell (r : Nat) (n : Nat) :
    ∀ (t : Table) (r' c' : Nat),
    cellGet ((List.range n).foldl (fun t2 c => tableClearCell t2 r c) t) r' c' =
      if r' = r ∧ c' < n then (cellGet t r' c').map clearCellFn else cellGet t r' c' := by
  induction n with
  | zero =>
    intro t r' c'
    simp [List.range_zero]
  | succ n ih =>
    intro t r' c'
    rw [List.range_succ, List.foldl_append, List.foldl_cons, List.foldl_nil,
      tableClearCell_eq, cellGet_modify]
    simp only [ih]
    by_cases hr : r' = r
    · by_cases hc : c' = n
      · rw [if_pos (show r' = r ∧ c' = n from ⟨hr, hc⟩),
          if_pos (show r' = r ∧ c' < n + 1 by omega)]
        rw [hr, hc]
        simp
      · by_cases hlt : c' < n
        · rw [if_neg (show ¬(r' = r ∧ c' = n) by tauto),
            if_pos (show r' = r ∧ c' < n from ⟨hr, hlt⟩),
            if_pos (show r' = r ∧ c' < n + 1 by omega)]
        · rw [if_neg (show ¬(r' = r ∧ c' = n) by tauto),
            if_neg (show ¬(r' = r ∧ c' < n) by tauto),
            if_neg (show ¬(r' = r ∧ c' < n + 1) by omega)]
    · rw [if_neg (show ¬(r' = r ∧ c' = n) by tauto),
        if_neg (show ¬(r' = r ∧ c' < n) by tauto),
        if_neg (show ¬(r' = r ∧ c' < n + 1) by tauto)]

theorem clearRowBody_nCols (t : Table) (r : Nat) : (clearRowBody t r).nCols = t.nCols :=
  clearColsFold_nCols r (List.range t.nCols) t

theorem clearRowBody_length (t : Table) (r : Nat) :
    (clearRowBody t r).rows.length = t.rows.length :=
  clearColsFold_length r (List.range t.nCols) t

theorem clearRowBody_cell (t : Table) (r : Nat) (r' c' : Nat) :
    cellGet (clearRowBody t r) r' c' =
      if r' = r ∧ c' < t.nCols then (cellGet t r' c').map clearCellFn
      else cellGet t r' c' :=
  clearRowFold_cell r t.nCols t r' c'

theorem clearFold_nCols (rs : List Nat) :
    ∀ (t : Table), ((rs.foldl clearRowBody t)).nCols = t.nCols := by
  induction rs with
  | nil => intro t; rfl
  | cons r rest ih =>
    intro t
    rw [List.foldl_cons, ih, clearRowBody_nCols]

theorem clearFold_length (rs : List Nat) :
    ∀ (t : Table), ((rs.foldl clearRowBody t)).rows.length = t.rows.length := by
  induction rs with
  | nil => intro t; rfl
  | cons r rest ih =>
    intro t
    rw [List.foldl_cons, ih, clearRowBody_length]

theorem clearFold_cell (rs : List Nat) :
    ∀ (t : Table) (r' c' : Nat),
    cellGet (rs.foldl clearRowBody t) r' c' =
      if r' ∈ rs ∧ c' < t.nCols then (cellGet t r' c').map clearCellFn
      else cellGet t r' c' := by
  induction rs with
  | nil =>
    intro t r' c'
    simp
  | cons r rest ih =>
    intro t r' c'
    rw [List.foldl_cons, ih, clearRowBody_nCols, clearRowBody_cell]
    by_cases hcn : c' < t.nCols
    · by_cases hr : r' = r
      · by_cases hmem : r' ∈ rest
        · rw [if_pos ⟨hmem, hcn⟩, if_pos ⟨hr, hcn⟩,
            if_pos (show r' ∈ r :: rest ∧ c' < t.nCols from ⟨List.mem_cons_of_mem r hmem, hcn⟩)]
          cases cellGet t r' c' <;> simp [clearCellFn_idem]
        · rw [if_neg (show ¬(r' ∈ rest ∧ c' < t.nCols) by tauto), if_pos ⟨hr, hcn⟩,
            if_pos (show r' ∈ r :: rest ∧ c' < t.nCols from ⟨hr ▸ List.mem_cons_self r rest, hcn⟩)]
      · by_cases hmem : r' ∈ rest
        · rw [if_pos ⟨hmem, hcn⟩, if_neg (show ¬(r' = r ∧ c' < t.nCols) by tauto),
            if_pos (show r' ∈ r :: rest ∧ c' < t.nCols from ⟨List.mem_cons_of_mem r hmem, hcn⟩)]
        · rw [if_neg (show ¬(r' ∈ rest ∧ c' < t.nCols) by tauto),
            if_neg (show ¬(r' = r ∧ c' < t.nCols) by tauto),
            if_neg (show ¬(r' ∈ r :: rest ∧ c' < t.nCols) from
              fun h => (List.mem_cons.mp h.1).elim (fun he => hr he) (fun hm => hmem hm))]
    · rw [if_neg (show ¬(r' ∈ rest ∧ c' < t.nCols) by tauto),
        if_neg (show ¬(r' = r ∧ c' < t.nCols) by tauto),
        if_neg (show ¬(r' ∈ r :: rest ∧ c' < t.nCols) by tauto)]

theorem tableClear_cell (tbl : Table) (fromRow : Nat) (r' c' : Nat) :
    cellGet (tableClear tbl fromRow) r' c' =
      if fromRow ≤ r' ∧ r' < tbl.rows.length ∧ c' < tbl.nCols then
        (cellGet tbl r' c').map clearCellFn
      else cellGet tbl r' c' := by
  have heq : tableClear tbl fromRow =
      (List.range' fromRow (tbl.rows.length - fromRow)).foldl clearRowBody tbl := rfl
  rw [heq, clearFold_cell]
  by_cases h : fromRow ≤ r' ∧ r' < tbl.rows.length ∧ c' < tbl.nCols
  · rw [if_pos h, if_pos ⟨List.mem_range'_1.mpr ⟨h.1, by omega⟩, h.2.2⟩]
  · rw [if_neg h, if_neg (show ¬(r' ∈ List.range' fromRow (tbl.rows.length - fromRow) ∧
        c' < tbl.nCols) from fun hc => by
          have := List.mem_range'_1.mp hc.1
          exact h ⟨this.1, by omega, hc.2⟩)]

theorem tableClear_nCols (tbl : Table) (fromRow : Nat) :
    (tableClear tbl fromRow).nCols = tbl.nCols :=
  clearFold_nCols (List.range' fromRow (tbl.rows.length - fromRow)) tbl

theorem tableClear_length (tbl : Table) (fromRow : Nat) :
    (tableClear tbl fromRow).rows.length = tbl.rows.length :=
  clearFold_length (List.range' fromRow (tbl.rows.length - fromRow)) tbl

theorem cellGet_none (tbl : Table) (r c : Nat) (h : tbl.rows.length ≤ r) :
    cellGet tbl r c = none := by
  unfold cellGet
  rw [List.get?_eq_getElem?, List.getElem?_eq_none h]
  rfl

theorem populate_table_cell (tbl : Table) (data : List (List CellVal)) (start : Nat)
    (r c : Nat) :
    cellGet (tableClear (tableWriteRows start tbl 0 data) (data.length + start)) r c =
      if r < start then cellGet tbl r c
      else if r - start < data.length then
        (if c < (data.getD (r - start) []).length ∧ c < tbl.nCols then
          (cellGet tbl r c).map (writeCellFn ((data.getD (r - start) []).getD c (.cs "")))
        else cellGet tbl r c)
      else if c < tbl.nCols then (cellGet tbl r c).map clearCellFn
      else cellGet tbl r c := by
  rw [tableClear_cell, tableWriteRows_length, tableWriteRows_nCols, tableWriteRows_cell]
  simp only [Nat.add_zero, Nat.sub_zero]
  by_cases h1 : r < start
  · rw [if_neg (show ¬(start ≤ r ∧ r < start + data.length ∧ r < tbl.rows.length ∧
          c < (data.getD (r - start) []).length ∧ c < tbl.nCols) by omega),
      if_neg (show ¬(data.length + start ≤ r ∧ r < tbl.rows.length ∧ c < tbl.nCols) by omega),
      if_pos h1]
  · by_cases h2 : r - start < data.length
    · rw [if_neg (show ¬(data.length + start ≤ r ∧ r < tbl.rows.length ∧ c < tbl.nCols)
          by omega),
        if_neg h1, if_pos h2]
      by_cases hrl : r < tbl.rows.length
      · by_cases h3 : c < (data.getD (r - start) []).length ∧ c < tbl.nCols
        · rw [if_pos (show start ≤ r ∧ r < start + data.length ∧ r < tbl.rows.length ∧
              c < (data.getD (r - start) []).length ∧ c < tbl.nCols
              from ⟨by omega, by omega, hrl, h3.1, h3.2⟩),
            if_pos h3]
        · rw [if_neg (show ¬(start ≤ r ∧ r < start + data.length ∧ r < tbl.rows.length ∧
                c < (data.getD (r - start) []).length ∧ c < tbl.nCols) by tauto),
            if_neg h3]
      · have hnone := cellGet_none tbl r c (by omega)
        rw [if_neg (show ¬(start ≤ r ∧ r < start + data.length ∧ r < tbl.rows.length ∧
            c < (data.getD (r - start) []).length ∧ c < tbl.nCols) by omega)]
        by_cases h3 : c < (data.getD (r - start) []).length ∧ c < tbl.nCols
        · rw [if_pos h3, hnone]
          rfl
        · rw [if_neg h3]
    · rw [if_neg h1, if_neg h2,
        if_neg (show ¬(start ≤ r ∧ r < start + data.length ∧ r < tbl.rows.length ∧
            c < (data.getD (r - start) []).length ∧ c < tbl.nCols) by omega)]
      by_cases h4 : c < tbl.nCols
      · by_cases hrl : r < tbl.rows.length
        · rw [if_pos (show data.length + start ≤ r ∧ r < tbl.rows.length ∧ c < tbl.nCols
              from ⟨by omega, hrl, h4⟩), if_pos h4]
        · have hnone := cellGet_none tbl r c (by omega)
          rw [if_neg (show ¬(data.length + start ≤ r ∧ r < tbl.rows.length ∧ c < tbl.nCols)
              by tauto), if_pos h4, hnone]
          rfl
      · rw [if_neg (show ¬(data.length + start ≤ r ∧ r < tbl.rows.length ∧ c < tbl.nCols)
            by tauto), if_neg h4]

/-- C4: a table write succeeds on a table shape; with startRow = 1 when
the header is skipped, data row i lands in table row startRow + i, rows
beyond the table and cells beyond the column count are silently
dropped, and every table row at index at least startRow + len(rows) is
cleared to empty text in all its columns; rows before startRow are
untouched. -/
theorem table_write_spec
    (shape : Shape) (tbl : Table) (data : List (List CellVal)) (skip : Bool)
    (hc : shape.content = .table tbl) :
    (populate_table shape data skip).2 = true ∧
    ∃ tbl2, (populate_table shape data skip).1.content = .table tbl2 ∧
      tbl2.rows.length = tbl.rows.length ∧ tbl2.nCols = tbl.nCols ∧
      ∀ r c, cellGet tbl2 r c =
        if r < (if skip then 1 else 0) then cellGet tbl r c
        else if r - (if skip then 1 else 0) < data.length then
          (if c < (data.getD (r - (if skip then 1 else 0)) []).length ∧ c < tbl.nCols then
            (cellGet tbl r c).map
              (writeCellFn ((data.getD (r - (if skip then 1 else 0)) []).getD c (.cs "")))
          else cellGet tbl r c)
        else if c < tbl.nCols then (cellGet tbl r c).map clearCellFn
        else cellGet tbl r c := by
  have hresult : populate_table shape data skip =
      ({ shape with content := .table (tableClear
          (tableWriteRows (if skip then 1 else 0) tbl 0 data)
          (data.length + (if skip then 1 else 0))) }, true) := by
    simp [populate_table, hc]
  rw [hresult]
  refine ⟨rfl, tableClear (tableWriteRows (if skip then 1 else 0) tbl 0 data)
      (data.length + (if skip then 1 else 0)), rfl, ?_, ?_, ?_⟩
  · rw [tableClear_length, tableWriteRows_length]
  · rw [tableClear_nCols, tableWriteRows_nCols]
  · intro r c
    exact populate_table_cell tbl data (if skip then 1 else 0) r c

/-- An empty-text cell with an unstyled single paragraph. -/
def cellBlank : Cell := ⟨⟨[⟨[⟨[], Font.unset⟩], Font.unset⟩]⟩⟩

/-- A cell showing the given text in one unstyled paragraph. -/
def cellOf (s : String) : Cell := ⟨⟨[⟨[⟨s.data, Font.unset⟩], Font.unset⟩]⟩⟩

/-- A 4-row, 2-column table with header texts and stale body texts. -/
def tblEx : Table :=
  ⟨[[cellOf "H1", cellOf "H2"],
    [cellOf "old10", cellOf "old11"],
    [cellOf "old20", cellOf "old21"],
    [cellOf "old30", cellOf "old31"]], 2⟩

/-- Witness for C4: the claim's 4-row table written with two data rows
and skipHeaderRow true. -/
theorem table_write_spec_witness :
    (populate_table ⟨"tbl", .table tblEx, false⟩ [[.cs "a", .cs "b"], [.cs "c", .cs "d"]] true).2
      = true ∧
    ∃ tbl2, (populate_table ⟨"tbl", .table tblEx, false⟩
        [[.cs "a", .cs "b"], [.cs "c", .cs "d"]] true).1.content = .table tbl2 ∧
      tbl2.rows.length = tblEx.rows.length ∧ tbl2.nCols = tblEx.nCols ∧
      ∀ r c, cellGet tbl2 r c =
        if r < (if true then 1 else 0) then cellGet tblEx r c
        else if r - (if true then 1 else 0) <
            ([[.cs "a", .cs "b"], [.cs "c", .cs "d"]] : List (List CellVal)).length then
          (if c < (([[.cs "a", .cs "b"], [.cs "c", .cs "d"]] : List (List CellVal)).getD
                (r - (if true then 1 else 0)) []).length ∧ c < tblEx.nCols then
            (cellGet tblEx r c).map
              (writeCellFn ((([[.cs "a", .cs "b"], [.cs "c", .cs "d"]] :
                List (List CellVal)).getD (r - (if true then 1 else 0)) []).getD c (.cs "")))
          else cellGet tblEx r c)
        else if c < tblEx.nCols then (cellGet tblEx r c).map clearCellFn
        else cellGet tblEx r c :=
  table_write_spec ⟨"tbl", .table tblEx, false⟩ tblEx
    [[.cs "a", .cs "b"], [.cs "c", .cs "d"]] true rfl

/-- One-cell table used by the C9 counterexample. -/
def tblC9 : Table := ⟨[[cellOf "x"]], 1⟩

/-- Template whose only slide holds a table element named plain "k". -/
def prsC9 : PresDoc := ⟨[⟨[⟨"k", .table tblC9, false⟩], ⟨[]⟩⟩]⟩

/-- Field map with a grid under the key "k", no "_table" suffix. -/
def dataC9 : List (String × Value) := [("k", .vgrid [[.cs "a"]])]

/-- C9 counterexample: a grid value under a key without the "_table"
suffix is written as a table by the instruction-list path but ignored
entirely by the legacy single-slide path, so the two report different
fieldsWritten counts on the same input. -/
theorem legacy_adapter_counterexample :
    (populate_presentation_from_data prsC9 dataC9 0).map (fun r => r.2.length) = some 0 ∧
    (populate_multi_slide prsC9 [⟨0, dataC9⟩]).map (fun r => r.2.1) = some 1 := by
  refine ⟨by decide, by decide⟩

theorem legacyTextStep_eq (data : List (String × Value)) (kv : String × Value)
    (hiff : kv.2.isList = true ↔ endsWithStr kv.1 "_table" = true)
    (acc : Slide × List String) :
    legacyTextStep acc kv = textPassStep acc kv := by
  unfold legacyTextStep textPassStep
  cases hl : kv.2.isList with
  | true =>
    rw [if_pos (Or.inr rfl), if_pos rfl]
  | false =>
    have hends : endsWithStr kv.1 "_table" = false := by
      cases he : endsWithStr kv.1 "_table" with
      | true => exact absurd (hiff.mpr he) (by rw [hl]; simp)
      | false => rfl
    rw [if_neg (by simp [hends]), if_neg (by simp)]

theorem legacyTableStep_eq (data : List (String × Value)) (kv : String × Value)
    (hiff : kv.2.isList = true ↔ endsWithStr kv.1 "_table" = true)
    (hskip : kv.2.isList = true → (lookupData data (kv.1 ++ "_skip_header")).isSome = true)
    (acc : Slide × List String) :
    legacyTableStep data acc kv = tablePassStep data acc kv := by
  unfold legacyTableStep tablePassStep
  cases hv : kv.2 with
  | vgrid rows =>
    have hends : endsWithStr kv.1 "_table" = true := hiff.mp (by rw [hv]; rfl)
    have hsome : (lookupData data (kv.1 ++ "_skip_header")).isSome = true :=
      hskip (by rw [hv]; rfl)
    cases hlk : lookupData data (kv.1 ++ "_skip_header") with
    | none => rw [hlk] at hsome; simp at hsome
    | some v => simp [hends, hlk]
  | vstr s => rfl
  | vbool b => rfl

theorem legacyPopulateSlide_eq (slide : Slide) (data : List (String × Value))
    (hdata : ∀ kv ∈ data, (kv.2.isList = true ↔ endsWithStr kv.1 "_table" = true) ∧
      (kv.2.isList = true → (lookupData data (kv.1 ++ "_skip_header")).isSome = true)) :
    legacyPopulateSlide slide data = populate_single_slide slide data := by
  unfold legacyPopulateSlide populate_single_slide
  rw [List.foldl_ext legacyTextStep textPassStep (slide, [])
      (fun acc kv hkv => legacyTextStep_eq data kv (hdata kv hkv).1 acc)]
  exact List.foldl_ext (legacyTableStep data) (tablePassStep data) _
    (fun acc kv hkv => legacyTableStep_eq data kv (hdata kv hkv).1 (hdata kv hkv).2 acc)

/-- C9 amended: the legacy single-slide path agrees with a one-element
instruction list targeting slide 0 only on field maps whose list values
are exactly the keys ending in "_table" and which carry an explicit
skip-header entry for each of them; on such maps both resolve the same
names, perform the same writes and report the same fieldsWritten (the
counterexample shows the paths differ otherwise: the legacy path skips
grids without the "_table" suffix and defaults skip_header to true, the
instruction path writes every grid and defaults it to false). -/
theorem legacy_adapter_equivalence (prs : PresDoc) (data : List (String × Value))
    (hne : prs.slides ≠ [])
    (hdata : ∀ kv ∈ data, (kv.2.isList = true ↔ endsWithStr kv.1 "_table" = true) ∧
      (kv.2.isList = true → (lookupData data (kv.1 ++ "_skip_header")).isSome = true)) :
    ∃ prs2 fields,
      populate_presentation_from_data prs data 0 = some (prs2, fields) ∧
      populate_multi_slide prs [⟨0, data⟩] = some (prs2, fields.length, 0) := by
  cases hps : prs.slides with
  | nil => exact absurd hps hne
  | cons s0 srest =>
    have hlen : prs.slides.length = srest.length + 1 := by rw [hps]; rfl
    refine ⟨⟨prs.slides.set 0 (populate_single_slide s0 data).1⟩,
      (populate_single_slide s0 data).2, ?_, ?_⟩
    · unfold populate_presentation_from_data
      rw [if_neg (by omega), if_neg (by omega), hps]
      simp only [List.get?_eq_getElem?, List.getElem?_cons_zero]
      rw [legacyPopulateSlide_eq s0 data hdata]
    · unfold populate_multi_slide
      rw [if_neg (by omega)]
      simp only [List.foldl_cons, List.foldl_nil]
      unfold orchStep
      simp only [usageLookup, List.find?_nil, Option.map_none]
      rw [if_pos (by constructor; omega; rfl)]
      rw [hps]
      simp only [List.get?_eq_getElem?, List.getElem?_cons_zero, Option.getD_some]
      rw [← hps, Nat.zero_add]

/-- Two-row, one-column table for the C9 witness. -/
def tblC9b : Table := ⟨[[cellOf "h"], [cellOf "x"]], 1⟩

/-- Template whose only slide holds a table element named "a_table". -/
def prsC9b : PresDoc := ⟨[⟨[⟨"a_table", .table tblC9b, false⟩], ⟨[]⟩⟩]⟩

/-- Field map meeting the amended C9 hypotheses: the only grid key ends
in "_table" and carries an explicit skip-header entry. -/
def dataC9b : List (String × Value) :=
  [("a_table", .vgrid [[.cs "v"]]), ("a_table_skip_header", .vbool true)]

/-- Witness for the amended C9 on a conforming field map. -/
theorem legacy_adapter_equivalence_witness :
    ∃ prs2 fields,
      populate_presentation_from_data prsC9b dataC9b 0 = some (prs2, fields) ∧
      populate_multi_slide prsC9b [⟨0, dataC9b⟩] = some (prs2, fields.length, 0) :=
  legacy_adapter_equivalence prsC9b dataC9b (by decide) (by decide)
